import Mathlib

/-!
# ResumeFit — formal model of the matching core

A shallow embedding of the ResumeFit text-matching pipeline:

* `analyzer/ml/text_processing.py` — `clean_text`
* `analyzer/ml/skills.py` — `_normalize_for_matching`, `extract_skills`,
  `SKILL_VOCABULARY`
* `analyzer/ml/pipeline.py` — `ResumeMatcher.compute_similarity`,
  `ResumeMatcher.analyze`

Strings are modelled as Lean `String` / `List Char`; the ASCII fragment of
Python's case folding and of the regex classes `\s` and `\w` is modelled
(every text reaching the matching code is ASCII after normalization).
-/

set_option maxHeartbeats 1000000

namespace ResumeFit

/-- Characters matched by the regex class `\s` (ASCII fragment, as used by
`re.sub(r'\s+', ' ', ·)` and by `str.strip`). -/
def isPySpace (c : Char) : Bool :=
  c = ' ' || c = '\t' || c = '\n' || c = '\r' || c = '\x0b' || c = '\x0c'

/-- Model of `str.lower` (ASCII fragment): map `A`–`Z` to `a`–`z`. -/
def pyLower (c : Char) : Char :=
  if 'A' ≤ c && c ≤ 'Z' then Char.ofNat (c.toNat + 32) else c

/-- Model of `re.sub(r'\s+', ' ', ·)`: every maximal run of whitespace
characters is replaced by a single space (a whitespace character followed
by further whitespace is dropped; the last character of a run becomes
`' '`). -/
def collapseWS : List Char → List Char
  | [] => []
  | [c] => if isPySpace c then [' '] else [c]
  | c₁ :: c₂ :: cs =>
    if isPySpace c₁ && isPySpace c₂ then collapseWS (c₂ :: cs)
    else (if isPySpace c₁ then ' ' else c₁) :: collapseWS (c₂ :: cs)

/-- Leading-whitespace removal (the left half of `str.strip`). -/
def lstripWS (l : List Char) : List Char := l.dropWhile fun c => isPySpace c

/-- Trailing-whitespace removal (the right half of `str.strip`). -/
def rstripWS (l : List Char) : List Char :=
  (l.reverse.dropWhile fun c => isPySpace c).reverse

/-- Model of `str.strip()`. -/
def stripWS (l : List Char) : List Char := rstripWS (lstripWS l)

/-- The character class kept by `clean_text`'s regex
`[^a-z0-9\s\+\#\.]` (i.e. the characters NOT replaced by a space). -/
def keepCleanChar (c : Char) : Bool :=
  ('a' ≤ c && c ≤ 'z') || ('0' ≤ c && c ≤ '9') || isPySpace c ||
    c = '+' || c = '#' || c = '.'

/-- `re.sub` of every character not in the kept class by a space. -/
def replaceDisallowed (keep : Char → Bool) (c : Char) : Char :=
  if keep c then c else ' '

/-- `text.replace('\n', ' ').replace('\t', ' ')`. -/
def replaceNlTab (c : Char) : Char := if c = '\n' || c = '\t' then ' ' else c

/-- The character-list body of `clean_text` (text_processing.py, lines 71–82):
lowercase, replace newline/tab by spaces, replace characters outside
`[a-z0-9\s\+\#\.]` by spaces, collapse whitespace runs, strip. -/
def cleanList (l : List Char) : List Char :=
  stripWS (collapseWS
    (((l.map pyLower).map replaceNlTab).map (replaceDisallowed keepCleanChar)))

/-- `clean_text` (text_processing.py): `if not text: return ""`, then the
five cleaning steps. -/
def clean_text (s : String) : String :=
  if s = "" then "" else String.mk (cleanList s.data)

/-- The character class kept by `_normalize_for_matching`'s regex
`[^a-z0-9\s\+\#\./]` — the `clean_text` class plus `/`. -/
def keepMatchChar (c : Char) : Bool := keepCleanChar c || c = '/'

/-- `_normalize_for_matching` (skills.py): lowercase, replace characters
outside `[a-z0-9\s\+\#\./]` by spaces, collapse whitespace, strip. -/
def normalizeForMatching (l : List Char) : List Char :=
  stripWS (collapseWS ((l.map pyLower).map (replaceDisallowed keepMatchChar)))

/-- Characters matched by the regex class `\w` (ASCII fragment), which is
what the `\b` assertion tests. -/
def isWordChar (c : Char) : Bool :=
  ('a' ≤ c && c ≤ 'z') || ('A' ≤ c && c ≤ 'Z') || ('0' ≤ c && c ≤ '9') || c = '_'

/-- Whether position `i` of `l` holds a word character (out of range: no). -/
def wordAt (l : List Char) (i : Nat) : Bool :=
  match l.drop i with
  | [] => false
  | c :: _ => isWordChar c

/-- Python's `\b` assertion at position `i` (between `l[i-1]` and `l[i]`):
exactly one of the two neighbouring positions holds a word character;
positions outside the string count as non-word. -/
def boundaryAt (l : List Char) (i : Nat) : Bool :=
  (decide (0 < i) && wordAt l (i - 1)) != wordAt l i

/-- The literal characters `pat` occur in `l` starting at position `i`. -/
def matchChunkAt (l pat : List Char) (i : Nat) : Bool :=
  (l.drop i).take pat.length == pat

/-- Model of `re.search(r'\b' + re.escape(pat) + r'\b', l)`: some position
`i` starts a literal occurrence of `pat` with a `\b` boundary on both
sides (`re.escape` makes every character of `pat` literal). -/
def searchWB (pat l : List Char) : Bool :=
  (List.range (l.length + 1)).any fun i =>
    boundaryAt l i && matchChunkAt l pat i && boundaryAt l (i + pat.length)

/-- The built-in skill vocabulary (skills.py, `SKILL_VOCABULARY`). -/
def SKILL_VOCABULARY : List String := [
  "python", "java", "javascript", "typescript", "c++", "c#", "ruby",
  "go", "rust", "swift", "kotlin", "php", "scala", "r", "matlab",
  "perl", "bash", "shell scripting", "sql", "html", "css",
  "django", "flask", "fastapi", "react", "angular", "vue.js", "node.js",
  "express.js", "spring boot", "ruby on rails", "asp.net", "next.js",
  "svelte", "jquery", "bootstrap", "tailwind css",
  "machine learning", "deep learning", "natural language processing",
  "computer vision", "data analysis", "data visualization",
  "scikit-learn", "tensorflow", "pytorch", "keras", "pandas", "numpy",
  "scipy", "matplotlib", "seaborn", "opencv", "nltk", "spacy",
  "data mining", "statistical modeling", "feature engineering",
  "mysql", "postgresql", "mongodb", "redis", "elasticsearch",
  "sqlite", "oracle", "sql server", "cassandra", "dynamodb",
  "firebase", "neo4j",
  "aws", "azure", "google cloud", "gcp", "docker", "kubernetes",
  "terraform", "ansible", "jenkins", "ci/cd", "github actions",
  "gitlab ci", "linux", "nginx", "apache",
  "git", "github", "gitlab", "bitbucket", "jira", "confluence",
  "slack", "figma", "postman", "swagger", "graphql", "rest api",
  "microservices", "serverless",
  "apache spark", "hadoop", "kafka", "airflow", "etl",
  "data warehousing", "snowflake", "databricks",
  "unit testing", "integration testing", "selenium", "pytest",
  "jest", "cypress", "test driven development",
  "leadership", "communication", "teamwork", "problem solving",
  "critical thinking", "project management", "agile", "scrum",
  "time management", "mentoring",
  "cybersecurity", "penetration testing", "encryption",
  "authentication", "authorization", "oauth", "jwt",
  "android", "ios", "react native", "flutter",
  "blockchain", "web scraping", "api development",
  "system design", "object oriented programming", "functional programming",
  "version control", "technical writing", "data structures",
  "algorithms", "design patterns"]

/-- Python's `<` on strings, on the underlying character lists:
lexicographic comparison by code points. -/
def lexLt : List Char → List Char → Bool
  | [], [] => false
  | [], _ :: _ => true
  | _ :: _, [] => false
  | a :: as, b :: bs => if a < b then true else if b < a then false else lexLt as bs

/-- `a ≤ b` in Python's string order: `¬ (b < a)`. -/
def pyStrLe (a b : String) : Prop := lexLt b.data a.data = false

instance : DecidableRel pyStrLe := fun a b =>
  if h : lexLt b.data a.data = false then .isTrue h else .isFalse h

/-- Python's `sorted(set(xs))` on strings: deduplicate, then sort ascending
by code points. -/
def pySortedSet (l : List String) : List String :=
  List.insertionSort pyStrLe l.dedup

/-- `extract_skills` (skills.py): empty text gives `[]`; otherwise normalize
the text, keep the vocabulary entries whose lowercased form has a
`\b`-delimited occurrence in the normalized text, and return them as
`sorted(set(found_skills))`. -/
def extract_skills (text : String) (vocabulary : Option (List String)) : List String :=
  if text = "" then []
  else
    let vocab := vocabulary.getD SKILL_VOCABULARY
    let normalized_text := normalizeForMatching text.data
    pySortedSet (vocab.filter fun skill => searchWB (skill.data.map pyLower) normalized_text)

/-- Whether a character list starts with a whitespace character. -/
def headIsSpace : List Char → Bool
  | [] => false
  | c :: _ => isPySpace c

/-- The non-space characters that can survive `clean_text`:
lowercase letters, digits, `+`, `#`, `.`. -/
def finalChar (c : Char) : Bool :=
  ('a' ≤ c && c ≤ 'z') || ('0' ≤ c && c ≤ '9') || c = '+' || c = '#' || c = '.'

/-- No two adjacent characters are both whitespace. -/
def noAdjSpaces (l : List Char) : Prop :=
  List.Chain' (fun a b => ¬(isPySpace a = true ∧ isPySpace b = true)) l

/-! ### Model of the TF-IDF similarity scorer (pipeline.py)

`ResumeMatcher.compute_similarity` delegates vectorization to scikit-learn's
`TfidfVectorizer(stop_words='english', max_features=5000, ngram_range=(1,2),
sublinear_tf=True)` and to `cosine_similarity` — an external dependency, not
part of this repository's sources. The vectorizer is modelled from the
spec (§4.2) and the library's documented behavior: lowercase, tokenize on
runs of at least two word characters, drop English stop words, add bigrams,
cap at the 5000 most frequent features, weight by sublinear tf times
smoothed idf, L2-normalize rows, take the cosine of the two rows; `fit`
raises `ValueError` on an empty vocabulary. -/

/-- Modelled from the spec ("exclude a standard stopword list"): the
library's built-in English stop word list. -/
def ENGLISH_STOP_WORDS : List String := [
  "a", "about", "above", "across", "after", "afterwards", "again", "against",
  "all", "almost", "alone", "along", "already", "also", "although", "always",
  "am", "among", "amongst", "amoungst", "amount", "an", "and", "another",
  "any", "anyhow", "anyone", "anything", "anyway", "anywhere", "are",
  "around", "as", "at", "back", "be", "became", "because", "become",
  "becomes", "becoming", "been", "before", "beforehand", "behind", "being",
  "below", "beside", "besides", "between", "beyond", "bill", "both",
  "bottom", "but", "by", "call", "can", "cannot", "cant", "co", "con",
  "could", "couldnt", "cry", "de", "describe", "detail", "do", "done",
  "down", "due", "during", "each", "eg", "eight", "either", "eleven",
  "else", "elsewhere", "empty", "enough", "etc", "even", "ever", "every",
  "everyone", "everything", "everywhere", "except", "few", "fifteen",
  "fifty", "fill", "find", "fire", "first", "five", "for", "former",
  "formerly", "forty", "found", "four", "from", "front", "full", "further",
  "get", "give", "go", "had", "has", "hasnt", "have", "he", "hence", "her",
  "here", "hereafter", "hereby", "herein", "hereupon", "hers", "herself",
  "him", "himself", "his", "how", "however", "hundred", "i", "ie", "if",
  "in", "inc", "indeed", "interest", "into", "is", "it", "its", "itself",
  "keep", "last", "latter", "latterly", "least", "less", "ltd", "made",
  "many", "may", "me", "meanwhile", "might", "mill", "mine", "more",
  "moreover", "most", "mostly", "move", "much", "must", "my", "myself",
  "name", "namely", "neither", "never", "nevertheless", "next", "nine",
  "no", "nobody", "none", "noone", "nor", "not", "nothing", "now",
  "nowhere", "of", "off", "often", "on", "once", "one", "only", "onto",
  "or", "other", "others", "otherwise", "our", "ours", "ourselves", "out",
  "over", "own", "part", "per", "perhaps", "please", "put", "rather", "re",
  "same", "see", "seem", "seemed", "seeming", "seems", "serious", "several",
  "she", "should", "show", "side", "since", "sincere", "six", "sixty", "so",
  "some", "somehow", "someone", "something", "sometime", "sometimes",
  "somewhere", "still", "such", "system", "take", "ten", "than", "that",
  "the", "their", "them", "themselves", "then", "thence", "there",
  "thereafter", "thereby", "therefore", "therein", "thereupon", "these",
  "they", "thick", "thin", "third", "this", "those", "though", "three",
  "through", "throughout", "thru", "thus", "to", "together", "too", "top",
  "toward", "towards", "twelve", "twenty", "two", "un", "under", "until",
  "up", "upon", "us", "very", "via", "was", "we", "well", "were", "what",
  "whatever", "when", "whence", "whenever", "where", "whereafter",
  "whereas", "whereby", "wherein", "whereupon", "wherever", "whether",
  "which", "while", "whither", "who", "whoever", "whole", "whom", "whose",
  "why", "will", "with", "within", "without", "would", "yet", "you",
  "your", "yours", "yourself", "yourselves"]

/-- Maximal runs of word characters in a character list (`cur` accumulates
the current run, reversed). -/
def runsAux (cur : List Char) : List Char → List (List Char)
  | [] => if cur.isEmpty then [] else [cur.reverse]
  | c :: cs =>
    if isWordChar c then runsAux (c :: cur) cs
    else if cur.isEmpty then runsAux [] cs else cur.reverse :: runsAux [] cs

/-- The library's default token pattern `(?u)\b\w\w+\b` applied to the
lowercased document: maximal runs of word characters of length at least
two. -/
def docTokens (s : String) : List String :=
  ((runsAux [] (s.data.map pyLower)).filter fun t => 2 ≤ t.length).map String.mk

def removeStopWords (ts : List String) : List String :=
  ts.filter fun t => !(ENGLISH_STOP_WORDS.contains t)

/-- Bigrams of consecutive tokens, joined by a single space (the library
builds n-grams after stop word removal). -/
def bigrams : List String → List String
  | a :: b :: rest => (a ++ " " ++ b) :: bigrams (b :: rest)
  | _ => []

/-- The features (terms) a document contributes: its non-stop-word unigrams
and the bigrams over them. -/
def docFeatures (doc : String) : List String :=
  let toks := removeStopWords (docTokens doc)
  toks ++ bigrams toks

/-- Occurrences of feature `f` across the two-document corpus. -/
def corpusCount (d1 d2 : List String) (f : String) : Nat := d1.count f + d2.count f

/-- The fitted vocabulary: all distinct features sorted by name; when more
than `max_features = 5000` are present, the 5000 most frequent ones (ties
broken by name, as the library's stable argsort over the name-sorted
vocabulary does). -/
def fitFeatures (a b : String) : List String :=
  let d1 := docFeatures a
  let d2 := docFeatures b
  let all := pySortedSet (d1 ++ d2)
  if all.length ≤ 5000 then all
  else
    (List.insertionSort (fun f g => corpusCount d1 d2 g ≤ corpusCount d1 d2 f) all).take 5000

/-- Sublinear term frequency: `0` for an absent term, `1 + ln tf` else. -/
noncomputable def tfWeight (c : Nat) : ℝ := if c = 0 then 0 else 1 + Real.log c

/-- Smoothed inverse document frequency over the two-document corpus:
`ln((1 + n) / (1 + df)) + 1` with `n = 2`. -/
noncomputable def idfWeight (df : Nat) : ℝ := Real.log (3 / (1 + (df : ℝ))) + 1

/-- Number of the two documents containing feature `f`. -/
def docFreq (d1 d2 : List String) (f : String) : Nat :=
  (if 0 < d1.count f then 1 else 0) + (if 0 < d2.count f then 1 else 0)

/-- The tf-idf weight of feature `f` in the document with feature multiset
`d`, over the corpus `d1, d2`. -/
noncomputable def tfidfW (d d1 d2 : List String) (f : String) : ℝ :=
  tfWeight (d.count f) * idfWeight (docFreq d1 d2 f)

noncomputable def dotW (w1 w2 : String → ℝ) (L : List String) : ℝ :=
  ∑ f ∈ L.toFinset, w1 f * w2 f

noncomputable def normW (w : String → ℝ) (L : List String) : ℝ :=
  Real.sqrt (∑ f ∈ L.toFinset, w f ^ 2)

open Classical in
/-- Cosine similarity of the two weight vectors over the feature set; zero
when either vector is zero (the library's normalization leaves zero rows
untouched). -/
noncomputable def cosineSim (w1 w2 : String → ℝ) (L : List String) : ℝ :=
  if normW w1 L = 0 ∨ normW w2 L = 0 then 0
  else dotW w1 w2 L / (normW w1 L * normW w2 L)

open Classical in
/-- Python's round-half-to-even on a real number, to an integer. -/
noncomputable def roundHalfEven (x : ℝ) : ℤ :=
  if Int.fract x = 1 / 2 then 2 * round (x / 2) else round x

/-- Python's `round(x, 4)`, as an exact rational. -/
noncomputable def pyRound4 (x : ℝ) : ℚ := (roundHalfEven (x * 10000) : ℚ) / 10000

/-- Python's round-half-to-even on a rational number, to an integer. -/
def qRoundHalfEven (x : ℚ) : ℤ :=
  if Int.fract x = 1 / 2 then 2 * round (x / 2) else round x

/-- Python's `round(x, 1)` on a rational. -/
def pyRound1 (x : ℚ) : ℚ := (qRoundHalfEven (x * 10) : ℚ) / 10

/-- The state the shared singleton vectorizer carries between calls: the
vocabulary learned by the last `fit_transform` (which always re-learns it
from the two documents of the current call). -/
structure VecState where
  fitted : Option (List String)

def initialVecState : VecState := ⟨none⟩

/-- `ResumeMatcher.compute_similarity` (pipeline.py, lines 45–62), with the
shared vectorizer's state threaded explicitly: empty input short-circuits
to `0.0` before any vectorization; otherwise `fit_transform` re-fits the
vectorizer on exactly the two texts — raising on an empty vocabulary — and
the 4-decimal rounding of the cosine similarity of the two rows is
returned. -/
noncomputable def compute_similarity (st : VecState) (resume_text job_text : String) :
    VecState × Except String ℚ :=
  if resume_text = "" ∨ job_text = "" then (st, .ok 0)
  else
    let d1 := docFeatures resume_text
    let d2 := docFeatures job_text
    let feats := fitFeatures resume_text job_text
    if feats = [] then (st, .error "empty vocabulary")
    else
      (⟨some feats⟩,
        .ok (pyRound4 (cosineSim (tfidfW d1 d1 d2) (tfidfW d2 d1 d2) feats)))

/-- The analysis record assembled by `ResumeMatcher.analyze`. -/
structure AnalysisResult where
  similarity_score : ℚ
  match_percentage : ℚ
  resume_skills : List String
  job_skills : List String
  missing_skills : List String

/-- Python's `sorted(set(a) - set(b))`. -/
def pySortedSetDiff (a b : List String) : List String :=
  pySortedSet (a.filter fun s => !(b.contains s))

/-- The result dict built by `analyze` (pipeline.py, lines 92–100) from the
similarity score and the two extracted skill lists. -/
def mkAnalysisResult (similarity_score : ℚ) (resume_skills job_skills : List String) :
    AnalysisResult where
  similarity_score := similarity_score
  match_percentage := pyRound1 (similarity_score * 100)
  resume_skills := resume_skills
  job_skills := job_skills
  missing_skills := pySortedSetDiff job_skills resume_skills

/-- `ResumeMatcher.analyze` (pipeline.py, lines 64–100): clean both texts,
compute the similarity (an exception propagates), extract skills from the
raw texts, and assemble the result. -/
noncomputable def analyze (st : VecState) (resume_text_raw job_text_raw : String) :
    VecState × Except String AnalysisResult :=
  match compute_similarity st (clean_text resume_text_raw) (clean_text job_text_raw) with
  | (st2, .error e) => (st2, .error e)
  | (st2, .ok similarity_score) =>
    (st2, .ok (mkAnalysisResult similarity_score
      (extract_skills resume_text_raw none) (extract_skills job_text_raw none)))

/-- A sequence of scorer calls through the shared singleton's state. -/
noncomputable def runPairs (st : VecState) :
    List (String × String) → VecState × List (Except String ℚ)
  | [] => (st, [])
  | p :: ps =>
    let r := compute_similarity st p.1 p.2
    let rest := runPairs r.1 ps
    (rest.1, r.2 :: rest.2)

/-! ### Character-level facts -/

theorem isPySpace_space : isPySpace ' ' = true := rfl

theorem eq_of_isPySpace {c : Char} (h : isPySpace c = true) :
    c = ' ' ∨ c = '\t' ∨ c = '\n' ∨ c = '\r' ∨ c = '\x0b' ∨ c = '\x0c' := by
  simp only [isPySpace, Bool.or_eq_true, decide_eq_true_eq] at h
  tauto

theorem finalChar_not_space {c : Char} (h : finalChar c = true) : isPySpace c = false := by
  cases hs : isPySpace c
  · rfl
  · rcases eq_of_isPySpace hs with rfl | rfl | rfl | rfl | rfl | rfl <;>
      exact absurd h (by decide)

theorem sp_eq_space {c : Char} (hf : finalChar c = true ∨ c = ' ')
    (hs : isPySpace c = true) : c = ' ' := by
  rcases hf with hf | rfl
  · rw [finalChar_not_space hf] at hs; cases hs
  · rfl

theorem map_eq_self_of {f : Char → Char} {l : List Char} (h : ∀ c ∈ l, f c = c) :
    l.map f = l := by
  induction l with
  | nil => rfl
  | cons a l ih =>
    rw [List.map_cons, h a (List.mem_cons_self a l),
      ih fun c hc => h c (List.mem_cons_of_mem a hc)]

theorem pyLower_fixed {c : Char} (h : finalChar c = true ∨ c = ' ') : pyLower c = c := by
  rcases h with h | rfl
  · simp only [finalChar, Bool.or_eq_true, Bool.and_eq_true, decide_eq_true_eq] at h
    unfold pyLower
    rw [if_neg]
    intro hAZ
    rw [Bool.and_eq_true, decide_eq_true_eq, decide_eq_true_eq] at hAZ
    rcases h with (((⟨h1, -⟩ | ⟨-, h2⟩) | rfl) | rfl) | rfl
    · exact absurd (le_trans h1 hAZ.2) (by decide)
    · exact absurd (le_trans hAZ.1 h2) (by decide)
    · exact absurd hAZ.1 (by decide)
    · exact absurd hAZ.1 (by decide)
    · exact absurd hAZ.1 (by decide)
  · decide

theorem replaceNlTab_fixed {c : Char} (h : finalChar c = true ∨ c = ' ') :
    replaceNlTab c = c := by
  unfold replaceNlTab
  rw [if_neg]
  intro hnt
  rw [Bool.or_eq_true, decide_eq_true_eq, decide_eq_true_eq] at hnt
  rcases h with h | rfl
  · rcases hnt with rfl | rfl <;> exact absurd h (by decide)
  · rcases hnt with h' | h' <;> exact absurd h' (by decide)

theorem replaceDisallowed_clean_fixed {c : Char} (h : finalChar c = true ∨ c = ' ') :
    replaceDisallowed keepCleanChar c = c := by
  unfold replaceDisallowed
  rw [if_pos]
  rcases h with h | rfl
  · simp only [finalChar, Bool.or_eq_true] at h
    simp only [keepCleanChar, Bool.or_eq_true]
    tauto
  · decide

theorem keep_of_mem_map_replaceDisallowed {keep : Char → Bool} {l : List Char} {c : Char}
    (hsp : keep ' ' = true) (h : c ∈ l.map (replaceDisallowed keep)) : keep c = true := by
  obtain ⟨d, _, rfl⟩ := List.mem_map.mp h
  unfold replaceDisallowed
  by_cases hk : keep d = true
  · rwa [if_pos hk]
  · rw [if_neg hk]; exact hsp

/-! ### Facts about `collapseWS` -/

theorem mem_collapseWS : ∀ (l : List Char) (c : Char), c ∈ collapseWS l →
    c = ' ' ∨ (c ∈ l ∧ isPySpace c = false)
  | [], c, h => by simp [collapseWS] at h
  | [d], c, h => by
    by_cases hd : isPySpace d = true
    · rw [collapseWS, if_pos hd] at h
      exact Or.inl (List.mem_singleton.mp h)
    · rw [collapseWS, if_neg hd] at h
      rw [List.mem_singleton.mp h]
      exact Or.inr ⟨List.mem_singleton_self d, by simpa using hd⟩
  | c₁ :: c₂ :: cs, c, h => by
    by_cases h12 : (isPySpace c₁ && isPySpace c₂) = true
    · rw [collapseWS, if_pos h12] at h
      rcases mem_collapseWS (c₂ :: cs) c h with h' | ⟨hm, hs⟩
      · exact Or.inl h'
      · exact Or.inr ⟨List.mem_cons_of_mem _ hm, hs⟩
    · rw [collapseWS, if_neg h12] at h
      rcases List.mem_cons.mp h with hc | h'
      · by_cases h1 : isPySpace c₁ = true
        · rw [if_pos h1] at hc; exact Or.inl hc
        · rw [if_neg h1] at hc
          rw [hc]
          exact Or.inr ⟨List.mem_cons_self _ _, by simpa using h1⟩
      · rcases mem_collapseWS (c₂ :: cs) c h' with h'' | ⟨hm, hs⟩
        · exact Or.inl h''
        · exact Or.inr ⟨List.mem_cons_of_mem _ hm, hs⟩

theorem headIsSpace_collapseWS : ∀ l : List Char,
    headIsSpace (collapseWS l) = headIsSpace l
  | [] => rfl
  | [d] => by
    by_cases hd : isPySpace d = true
    · rw [collapseWS, if_pos hd]; simp [headIsSpace, hd, isPySpace_space]
    · rw [collapseWS, if_neg hd]
  | c₁ :: c₂ :: cs => by
    by_cases h12 : (isPySpace c₁ && isPySpace c₂) = true
    · rw [collapseWS, if_pos h12, headIsSpace_collapseWS (c₂ :: cs)]
      rw [Bool.and_eq_true] at h12
      show headIsSpace (c₂ :: cs) = headIsSpace (c₁ :: c₂ :: cs)
      simp [headIsSpace, h12.1, h12.2]
    · rw [collapseWS, if_neg h12]
      by_cases h1 : isPySpace c₁ = true
      · rw [if_pos h1]; simp [headIsSpace, h1, isPySpace_space]
      · rw [if_neg h1]; rfl

theorem headIsSpace_eq_false_head {l : List Char} (h : headIsSpace l = false) :
    ∀ y ∈ l.head?, isPySpace y = false := by
  cases l with
  | nil => intro y hy; cases hy
  | cons a l => intro y hy; cases hy; exact h

theorem noAdjSpaces_collapseWS : ∀ l : List Char, noAdjSpaces (collapseWS l)
  | [] => List.chain'_nil
  | [d] => by
    by_cases hd : isPySpace d = true
    · rw [collapseWS, if_pos hd]; exact List.chain'_singleton _
    · rw [collapseWS, if_neg hd]; exact List.chain'_singleton _
  | c₁ :: c₂ :: cs => by
    by_cases h12 : (isPySpace c₁ && isPySpace c₂) = true
    · rw [collapseWS, if_pos h12]
      exact noAdjSpaces_collapseWS (c₂ :: cs)
    · rw [collapseWS, if_neg h12]
      rw [noAdjSpaces, List.chain'_cons']
      refine ⟨?_, noAdjSpaces_collapseWS (c₂ :: cs)⟩
      intro y hy hcontra
      have hy' : isPySpace y = true := hcontra.2
      by_cases h1 : isPySpace c₁ = true
      · have hc2 : isPySpace c₂ = false := by
          cases hc2 : isPySpace c₂
          · rfl
          · rw [Bool.and_eq_true] at h12; exact absurd ⟨h1, hc2⟩ h12
        have hh : headIsSpace (collapseWS (c₂ :: cs)) = false := by
          rw [headIsSpace_collapseWS (c₂ :: cs)]; exact hc2
        rw [headIsSpace_eq_false_head hh y hy] at hy'
        cases hy'
      · rw [if_neg h1] at hcontra
        exact h1 hcontra.1

theorem collapseWS_eq_self : ∀ l : List Char,
    (∀ c ∈ l, isPySpace c = true → c = ' ') → noAdjSpaces l → collapseWS l = l
  | [], _, _ => rfl
  | [d], hsp, _ => by
    by_cases hd : isPySpace d = true
    · rw [collapseWS, if_pos hd, hsp d (List.mem_singleton_self d) hd]
    · rw [collapseWS, if_neg hd]
  | c₁ :: c₂ :: cs, hsp, hadj => by
    have h12 : (isPySpace c₁ && isPySpace c₂) = false := by
      cases h1 : isPySpace c₁
      · rfl
      · cases h2 : isPySpace c₂
        · simp
        · exact absurd ⟨h1, h2⟩ (List.chain'_cons.mp hadj).1
    rw [collapseWS, if_neg (by simp [h12]),
      collapseWS_eq_self (c₂ :: cs) (fun c hc => hsp c (List.mem_cons_of_mem _ hc))
        (List.chain'_cons.mp hadj).2]
    by_cases h1 : isPySpace c₁ = true
    · rw [if_pos h1, hsp c₁ (List.mem_cons_self _ _) h1]
    · rw [if_neg h1]

/-! ### Facts about stripping -/

theorem headIsSpace_lstripWS : ∀ l : List Char, headIsSpace (lstripWS l) = false
  | [] => rfl
  | c :: cs => by
    unfold lstripWS
    rw [List.dropWhile_cons]
    by_cases hc : isPySpace c = true
    · rw [if_pos hc]
      exact headIsSpace_lstripWS cs
    · rw [if_neg hc]
      show isPySpace c = false
      simpa using hc

theorem headIsSpace_of_pre {l₁ l₂ : List Char} (hp : l₁ <+: l₂)
    (h : headIsSpace l₁ = true) : headIsSpace l₂ = true := by
  obtain ⟨t, rfl⟩ := hp
  cases l₁ with
  | nil => exact absurd h (by decide)
  | cons a l => exact h

theorem rstripWS_isPre (l : List Char) : rstripWS l <+: l := by
  unfold rstripWS
  have hsuf : (l.reverse.dropWhile fun c => isPySpace c) <:+ l.reverse :=
    List.dropWhile_suffix _
  obtain ⟨t, ht⟩ := hsuf
  exact ⟨t.reverse, by rw [← List.reverse_append, ht, List.reverse_reverse]⟩

theorem headIsSpace_rstripWS {l : List Char} (h : headIsSpace (rstripWS l) = true) :
    headIsSpace l = true := headIsSpace_of_pre (rstripWS_isPre l) h

theorem headIsSpace_reverse_rstripWS (l : List Char) :
    headIsSpace (rstripWS l).reverse = false := by
  unfold rstripWS
  rw [List.reverse_reverse]
  exact headIsSpace_lstripWS l.reverse

theorem lstripWS_eq_self {l : List Char} (h : headIsSpace l = false) : lstripWS l = l := by
  cases l with
  | nil => rfl
  | cons a l =>
    have ha : ¬((fun c => isPySpace c) a = true) := by simpa [headIsSpace] using h
    unfold lstripWS
    rw [List.dropWhile_cons, if_neg ha]

theorem rstripWS_eq_self {l : List Char} (h : headIsSpace l.reverse = false) :
    rstripWS l = l := by
  unfold rstripWS
  rw [show l.reverse.dropWhile (fun c => isPySpace c) = l.reverse from lstripWS_eq_self h,
    List.reverse_reverse]

theorem stripWS_eq_self {l : List Char} (h1 : headIsSpace l = false)
    (h2 : headIsSpace l.reverse = false) : stripWS l = l := by
  unfold stripWS
  rw [lstripWS_eq_self h1, rstripWS_eq_self h2]

theorem mem_lstripWS {c : Char} {l : List Char} (h : c ∈ lstripWS l) : c ∈ l :=
  (List.IsSuffix.sublist (List.dropWhile_suffix _)).subset h

theorem mem_rstripWS {c : Char} {l : List Char} (h : c ∈ rstripWS l) : c ∈ l := by
  unfold rstripWS at h
  rw [List.mem_reverse] at h
  have h2 := (List.IsSuffix.sublist (List.dropWhile_suffix _)).subset h
  rwa [List.mem_reverse] at h2

theorem mem_stripWS {c : Char} {l : List Char} (h : c ∈ stripWS l) : c ∈ l :=
  mem_lstripWS (mem_rstripWS h)

theorem noAdjSpaces_lstripWS {l : List Char} (h : noAdjSpaces l) :
    noAdjSpaces (lstripWS l) :=
  List.Chain'.suffix h (List.dropWhile_suffix _)

theorem noAdjSpaces_reverse {l : List Char} (h : noAdjSpaces l) : noAdjSpaces l.reverse := by
  unfold noAdjSpaces
  rw [List.chain'_reverse]
  exact List.Chain'.imp (fun a b hab hc => hab ⟨hc.2, hc.1⟩) h

theorem noAdjSpaces_rstripWS {l : List Char} (h : noAdjSpaces l) :
    noAdjSpaces (rstripWS l) := by
  unfold rstripWS
  exact noAdjSpaces_reverse
    (List.Chain'.suffix (noAdjSpaces_reverse h) (List.dropWhile_suffix _))

theorem noAdjSpaces_stripWS {l : List Char} (h : noAdjSpaces l) : noAdjSpaces (stripWS l) :=
  noAdjSpaces_rstripWS (noAdjSpaces_lstripWS h)

/-! ### The characters surviving `clean_text`, and idempotence -/

theorem cleanList_chars {x : List Char} {c : Char} (h : c ∈ cleanList x) :
    finalChar c = true ∨ c = ' ' := by
  unfold cleanList at h
  have h1 := mem_stripWS h
  rcases mem_collapseWS _ _ h1 with h2 | ⟨h2, hns⟩
  · exact Or.inr h2
  · have hk : keepCleanChar c = true := keep_of_mem_map_replaceDisallowed (by decide) h2
    left
    simp only [keepCleanChar, hns, Bool.or_eq_true, Bool.false_eq_true, or_false,
      false_or] at hk
    simp only [finalChar, Bool.or_eq_true]
    tauto

theorem cleanList_noAdjSpaces (x : List Char) : noAdjSpaces (cleanList x) :=
  noAdjSpaces_stripWS (noAdjSpaces_collapseWS _)

theorem cleanList_head (x : List Char) : headIsSpace (cleanList x) = false := by
  unfold cleanList stripWS
  cases hh : headIsSpace (rstripWS (lstripWS (collapseWS
      (((x.map pyLower).map replaceNlTab).map (replaceDisallowed keepCleanChar)))))
  · rfl
  · have h2 := headIsSpace_rstripWS hh
    rw [headIsSpace_lstripWS] at h2
    exact Bool.noConfusion h2

theorem cleanList_last (x : List Char) : headIsSpace (cleanList x).reverse = false := by
  unfold cleanList stripWS
  exact headIsSpace_reverse_rstripWS _

theorem cleanList_fix {y : List Char} (hc : ∀ c ∈ y, finalChar c = true ∨ c = ' ')
    (hadj : noAdjSpaces y) (hh : headIsSpace y = false)
    (hl : headIsSpace y.reverse = false) : cleanList y = y := by
  unfold cleanList
  rw [map_eq_self_of fun c hcy => pyLower_fixed (hc c hcy)]
  rw [map_eq_self_of fun c hcy => replaceNlTab_fixed (hc c hcy)]
  rw [map_eq_self_of fun c hcy => replaceDisallowed_clean_fixed (hc c hcy)]
  rw [collapseWS_eq_self y (fun c hcy hs => sp_eq_space (hc c hcy) hs) hadj]
  exact stripWS_eq_self hh hl

/-- C3: `clean_text` (the spec's `normalize`) is idempotent:
`normalize(normalize(x)) == normalize(x)` for every string `x`. -/
theorem c3_clean_text_idempotent (x : String) :
    clean_text (clean_text x) = clean_text x := by
  by_cases h : x = ""
  · rw [h]
    rfl
  · simp only [clean_text]
    rw [if_neg h]
    by_cases h2 : String.mk (cleanList x.data) = ""
    · rw [if_pos h2]
      exact h2.symm
    · rw [if_neg h2]
      exact congrArg String.mk
        (cleanList_fix (fun c hc => cleanList_chars hc) (cleanList_noAdjSpaces _)
          (cleanList_head _) (cleanList_last _))

/-! ### The string order used by `sorted` -/

theorem lexLt_irrefl : ∀ l : List Char, lexLt l l = false
  | [] => rfl
  | a :: as => by
    rw [lexLt, if_neg (lt_irrefl a), if_neg (lt_irrefl a)]
    exact lexLt_irrefl as

theorem lexLt_trans : ∀ (l₁ l₂ l₃ : List Char),
    lexLt l₁ l₂ = true → lexLt l₂ l₃ = true → lexLt l₁ l₃ = true
  | [], [], _, h, _ => by simp [lexLt] at h
  | [], _ :: _, [], _, h => by simp [lexLt] at h
  | [], _ :: _, _ :: _, _, _ => rfl
  | _ :: _, [], _, h, _ => by simp [lexLt] at h
  | _ :: _, _ :: _, [], _, h => by simp [lexLt] at h
  | a :: as, b :: bs, c :: cs, h12, h23 => by
    rw [lexLt] at h12 h23 ⊢
    by_cases hab : a < b
    · by_cases hbc : b < c
      · rw [if_pos (lt_trans hab hbc)]
      · by_cases hcb : c < b
        · rw [if_neg hbc, if_pos hcb] at h23
          exact absurd h23 (by decide)
        · have hEq : b = c := le_antisymm (not_lt.mp hcb) (not_lt.mp hbc)
          subst hEq
          rw [if_pos hab]
    · by_cases hba : b < a
      · rw [if_neg hab, if_pos hba] at h12
        exact absurd h12 (by decide)
      · have hEq : a = b := le_antisymm (not_lt.mp hba) (not_lt.mp hab)
        subst hEq
        rw [if_neg (lt_irrefl a), if_neg (lt_irrefl a)] at h12
        by_cases hac : a < c
        · rw [if_pos hac]
        · by_cases hca : c < a
          · rw [if_neg hac, if_pos hca] at h23
            exact absurd h23 (by decide)
          · have hEq2 : a = c := le_antisymm (not_lt.mp hca) (not_lt.mp hac)
            subst hEq2
            rw [if_neg (lt_irrefl a), if_neg (lt_irrefl a)] at h23 ⊢
            exact lexLt_trans as bs cs h12 h23

theorem lexLt_conn : ∀ (l₁ l₂ : List Char),
    lexLt l₁ l₂ = false → lexLt l₂ l₁ = false → l₁ = l₂
  | [], [], _, _ => rfl
  | [], _ :: _, h, _ => by simp [lexLt] at h
  | _ :: _, [], _, h => by simp [lexLt] at h
  | a :: as, b :: bs, h12, h21 => by
    rw [lexLt] at h12 h21
    by_cases hab : a < b
    · rw [if_pos hab] at h12
      exact absurd h12 (by decide)
    · by_cases hba : b < a
      · rw [if_pos hba] at h21
        exact absurd h21 (by decide)
      · have hEq : a = b := le_antisymm (not_lt.mp hba) (not_lt.mp hab)
        subst hEq
        rw [if_neg (lt_irrefl a), if_neg (lt_irrefl a)] at h12 h21
        rw [lexLt_conn as bs h12 h21]

instance : IsTrans String pyStrLe := ⟨by
  intro a b c hab hbc
  unfold pyStrLe at hab hbc ⊢
  cases hca : lexLt c.data a.data
  · rfl
  · exfalso
    cases hbc2 : lexLt b.data c.data
    · rw [lexLt_conn c.data b.data hbc hbc2] at hca
      rw [hca] at hab
      exact Bool.noConfusion hab
    · rw [lexLt_trans b.data c.data a.data hbc2 hca] at hab
      exact Bool.noConfusion hab⟩

instance : IsTotal String pyStrLe := ⟨by
  intro a b
  unfold pyStrLe
  cases hba : lexLt b.data a.data
  · exact Or.inl rfl
  · right
    cases hab : lexLt a.data b.data
    · rfl
    · have h := lexLt_trans a.data b.data a.data hab hba
      rw [lexLt_irrefl] at h
      exact Bool.noConfusion h⟩

theorem pySortedSet_fix (l : List String) :
    pySortedSet (pySortedSet l) = pySortedSet l := by
  unfold pySortedSet
  have hnd : (List.insertionSort pyStrLe l.dedup).Nodup :=
    ((List.perm_insertionSort pyStrLe l.dedup).nodup_iff).mpr (List.nodup_dedup l)
  rw [List.dedup_eq_self.mpr hnd]
  exact List.Sorted.insertionSort_eq (List.sorted_insertionSort pyStrLe l.dedup)

theorem mem_pySortedSet {s : String} {l : List String} : s ∈ pySortedSet l ↔ s ∈ l := by
  unfold pySortedSet
  rw [List.mem_insertionSort, List.mem_dedup]

theorem mem_extract_skills {text : String} {vocab : Option (List String)} {s : String} :
    s ∈ extract_skills text vocab ↔
      text ≠ "" ∧ s ∈ vocab.getD SKILL_VOCABULARY ∧
        searchWB (s.data.map pyLower) (normalizeForMatching text.data) = true := by
  unfold extract_skills
  by_cases h : text = ""
  · simp [h]
  · rw [if_neg h]
    rw [mem_pySortedSet, List.mem_filter]
    simp [h]

/-! ### Claims about the skill extractor -/

/-- C7: for every text and every vocabulary, the list returned by
`extract_skills` equals its own Python `sorted(set(·))` form — it is
sorted ascending and duplicate-free. -/
theorem c7_extract_skills_sorted_nodup (text : String) (vocab : Option (List String)) :
    extract_skills text vocab = pySortedSet (extract_skills text vocab) := by
  unfold extract_skills
  by_cases h : text = ""
  · rw [if_pos h]
    rfl
  · rw [if_neg h]
    exact (pySortedSet_fix _).symm

/-- C10: every element of `extract_skills text vocab` is a verbatim element
of the supplied vocabulary; with no vocabulary supplied, it is an element
of the built-in `SKILL_VOCABULARY`. -/
theorem c10_extract_skills_subset_vocab (text : String) (vocab : List String) (s : String) :
    (s ∈ extract_skills text (some vocab) → s ∈ vocab) ∧
    (s ∈ extract_skills text none → s ∈ SKILL_VOCABULARY) :=
  ⟨fun h => (mem_extract_skills.mp h).2.1, fun h => (mem_extract_skills.mp h).2.1⟩

theorem c10_witness :
    "python" ∈ (["python", "wizardry"] : List String) ∧ "python" ∈ SKILL_VOCABULARY :=
  ⟨(c10_extract_skills_subset_vocab "python and sql" ["python", "wizardry"] "python").1
      (by decide),
    (c10_extract_skills_subset_vocab "python and sql" ["python", "wizardry"] "python").2
      (by decide)⟩

/-- C1 (the code violates the claim): with the built-in vocabulary, the
tokens "c++" and "c#" are NOT extracted when followed by a space (or the
end of the text), because the trailing `\b` of the search pattern demands
a word character right after `+`/`#`; the last conjunct shows the flanking
requirement: "c++" is found in "c++x" where a word character follows. -/
theorem c1_cpp_csharp_not_extracted :
    "c++" ∉ extract_skills "skilled in c++ and java" none ∧
    "c#" ∉ extract_skills "skilled in c# and java" none ∧
    "java" ∈ extract_skills "skilled in c++ and java" none ∧
    searchWB ("c++".data.map pyLower) (normalizeForMatching "skilled in c++x".data) = true := by
  refine ⟨?_, ?_, ?_, ?_⟩ <;> decide

/-- C4: `extract_skills` matches whole tokens only: any extracted skill has
an occurrence in the normalized text with a word boundary on both sides;
in particular "angular" is not extracted from "rectangular shapes". -/
theorem c4_whole_token_only :
    (∀ (text : String) (vocab : Option (List String)) (s : String),
      s ∈ extract_skills text vocab →
      ∃ i, matchChunkAt (normalizeForMatching text.data) (s.data.map pyLower) i = true ∧
        boundaryAt (normalizeForMatching text.data) i = true ∧
        boundaryAt (normalizeForMatching text.data) (i + (s.data.map pyLower).length) = true) ∧
    "angular" ∉ extract_skills "rectangular shapes" none := by
  constructor
  · intro text vocab s h
    have hs := (mem_extract_skills.mp h).2.2
    unfold searchWB at hs
    obtain ⟨i, -, hi⟩ := List.any_eq_true.mp hs
    rw [Bool.and_eq_true, Bool.and_eq_true] at hi
    exact ⟨i, hi.1.2, hi.1.1, hi.2⟩
  · decide

theorem c4_witness :
    ∃ i, matchChunkAt (normalizeForMatching "pure java shop".data)
        ("java".data.map pyLower) i = true ∧
      boundaryAt (normalizeForMatching "pure java shop".data) i = true ∧
      boundaryAt (normalizeForMatching "pure java shop".data)
        (i + ("java".data.map pyLower).length) = true :=
  c4_whole_token_only.1 "pure java shop" none "java" (by decide)

/-! ### Claims about the scorer and the orchestration -/

/-- C5: if either argument is empty, `compute_similarity` returns exactly
`0.0` immediately — the vectorizer is not touched (its state is unchanged)
and no exception is possible. -/
theorem c5_empty_input_returns_zero (st : VecState) (x y : String)
    (h : x = "" ∨ y = "") : compute_similarity st x y = (st, .ok 0) := by
  unfold compute_similarity
  rw [if_pos h]

theorem c5_witness :
    compute_similarity initialVecState "" "anything" = (initialVecState, .ok 0) ∧
    compute_similarity initialVecState "anything" "" = (initialVecState, .ok 0) :=
  ⟨c5_empty_input_returns_zero initialVecState "" "anything" (Or.inl rfl),
   c5_empty_input_returns_zero initialVecState "anything" "" (Or.inr rfl)⟩

/-- C9: scoring is deterministic and reproducible: the value returned for a
pair of texts does not depend on the vectorizer state left behind by
earlier calls (fit_transform re-learns from exactly the two current
documents), so any sequence of interleaved calls yields, for each pair,
the value of a fresh scorer. -/
theorem c9_deterministic_scoring :
    (∀ (st st' : VecState) (x y : String),
      (compute_similarity st x y).2 = (compute_similarity st' x y).2) ∧
    (∀ (st : VecState) (ps : List (String × String)),
      (runPairs st ps).2 =
        ps.map fun p => (compute_similarity initialVecState p.1 p.2).2) := by
  have hind : ∀ (st st' : VecState) (x y : String),
      (compute_similarity st x y).2 = (compute_similarity st' x y).2 := by
    intro st st' x y
    simp only [compute_similarity]
    by_cases h : x = "" ∨ y = ""
    · rw [if_pos h, if_pos h]
    · rw [if_neg h, if_neg h]
      by_cases h2 : fitFeatures x y = []
      · rw [if_pos h2, if_pos h2]
      · rw [if_neg h2, if_neg h2]
  refine ⟨hind, ?_⟩
  intro st ps
  induction ps generalizing st with
  | nil => rfl
  | cons p ps ih =>
    show (compute_similarity st p.1 p.2).2 ::
        (runPairs (compute_similarity st p.1 p.2).1 ps).2 = _
    rw [List.map_cons, hind st initialVecState p.1 p.2, ih]

/-- C6: in every successfully produced analysis record, `missing_skills`
equals Python's `sorted(set(job_skills) - set(resume_skills))` computed
from the record's own `job_skills` and `resume_skills` fields. -/
theorem c6_missing_skills_diff (st : VecState) (r j : String) :
    ((analyze st r j).2.map fun res => res.missing_skills) =
      ((analyze st r j).2.map fun res =>
        pySortedSetDiff res.job_skills res.resume_skills) := by
  unfold analyze
  cases hcs : compute_similarity st (clean_text r) (clean_text j) with
  | mk st2 out => cases out <;> rfl

/-- C8: in every produced analysis record, `match_percentage` equals
`round(similarity_score * 100, 1)`; a record assembled from similarity
score `0.7534` has `match_percentage = 75.3` exactly. -/
theorem c8_match_percentage_rounding :
    (∀ (st : VecState) (r j : String),
      ((analyze st r j).2.map fun res => res.match_percentage) =
        ((analyze st r j).2.map fun res => pyRound1 (res.similarity_score * 100))) ∧
    (∀ rs js, (mkAnalysisResult (7534 / 10000) rs js).match_percentage = 753 / 10) := by
  constructor
  · intro st r j
    unfold analyze
    cases hcs : compute_similarity st (clean_text r) (clean_text j) with
    | mk st2 out => cases out <;> rfl
  · intro rs js
    show pyRound1 (7534 / 10000 * 100) = 753 / 10
    have hx : (7534 / 10000 * 100 * 10 : ℚ) = 3767 / 5 := by norm_num
    unfold pyRound1 qRoundHalfEven
    rw [hx]
    have hfl : ⌊(3767 / 5 : ℚ)⌋ = 753 := by
      rw [Int.floor_eq_iff]
      constructor <;> norm_num
    have hfr : Int.fract (3767 / 5 : ℚ) = 2 / 5 := by
      unfold Int.fract
      rw [hfl]
      norm_num
    rw [if_neg (by rw [hfr]; norm_num)]
    have hrd : round (3767 / 5 : ℚ) = 753 := by
      rw [round_eq]
      have h9 : (3767 / 5 + 1 / 2 : ℚ) = 7539 / 10 := by norm_num
      rw [h9, Int.floor_eq_iff]
      constructor <;> norm_num
    rw [hrd]
    norm_num

/-! ### Bounds for the cosine value -/

theorem tfWeight_nonneg (c : Nat) : 0 ≤ tfWeight c := by
  unfold tfWeight
  split_ifs with h
  · exact le_refl 0
  · have h1 : (1 : ℝ) ≤ (c : ℝ) := by
      exact_mod_cast Nat.one_le_iff_ne_zero.mpr h
    have h2 := Real.log_nonneg h1
    linarith

theorem tfidf_prod_nonneg (d1 d2 da db : List String) (f : String) :
    0 ≤ tfidfW da d1 d2 f * tfidfW db d1 d2 f := by
  unfold tfidfW
  have h : tfWeight (da.count f) * idfWeight (docFreq d1 d2 f) *
      (tfWeight (db.count f) * idfWeight (docFreq d1 d2 f)) =
      tfWeight (da.count f) * tfWeight (db.count f) *
        idfWeight (docFreq d1 d2 f) ^ 2 := by ring
  rw [h]
  exact mul_nonneg (mul_nonneg (tfWeight_nonneg _) (tfWeight_nonneg _)) (sq_nonneg _)

theorem normW_nonneg (w : String → ℝ) (L : List String) : 0 ≤ normW w L :=
  Real.sqrt_nonneg _

theorem cosineSim_nonneg {w1 w2 : String → ℝ} {L : List String}
    (h : ∀ f, 0 ≤ w1 f * w2 f) : 0 ≤ cosineSim w1 w2 L := by
  unfold cosineSim
  split_ifs with h0
  · exact le_refl 0
  · push_neg at h0
    have hn1 : 0 < normW w1 L := lt_of_le_of_ne (normW_nonneg w1 L) (Ne.symm h0.1)
    have hn2 : 0 < normW w2 L := lt_of_le_of_ne (normW_nonneg w2 L) (Ne.symm h0.2)
    exact div_nonneg (Finset.sum_nonneg fun f _ => h f) (le_of_lt (mul_pos hn1 hn2))

theorem cosineSim_le_one {w1 w2 : String → ℝ} {L : List String} :
    cosineSim w1 w2 L ≤ 1 := by
  unfold cosineSim
  split_ifs with h0
  · exact zero_le_one
  · push_neg at h0
    have hn1 : 0 < normW w1 L := lt_of_le_of_ne (normW_nonneg w1 L) (Ne.symm h0.1)
    have hn2 : 0 < normW w2 L := lt_of_le_of_ne (normW_nonneg w2 L) (Ne.symm h0.2)
    rw [div_le_one (mul_pos hn1 hn2)]
    unfold dotW normW
    exact Real.sum_mul_le_sqrt_mul_sqrt _ _ _

theorem roundHalfEven_nonneg {x : ℝ} (h : 0 ≤ x) : 0 ≤ roundHalfEven x := by
  unfold roundHalfEven
  split_ifs with hf
  · have h2 : (0 : ℤ) ≤ round (x / 2) := by
      rw [round_eq]
      exact Int.floor_nonneg.mpr (by linarith)
    omega
  · rw [round_eq]
    exact Int.floor_nonneg.mpr (by linarith)

theorem roundHalfEven_le_of_le {x : ℝ} {m : ℤ} (h : x ≤ 2 * m) :
    roundHalfEven x ≤ 2 * m := by
  unfold roundHalfEven
  split_ifs with hf
  · have h2 : round (x / 2) ≤ m := by
      rw [round_eq, ← Int.lt_add_one_iff, Int.floor_lt]
      push_cast
      linarith
    omega
  · rw [← Int.lt_add_one_iff, round_eq, Int.floor_lt]
    push_cast
    linarith

theorem pyRound4_unit {x : ℝ} (h0 : 0 ≤ x) (h1 : x ≤ 1) :
    0 ≤ pyRound4 x ∧ pyRound4 x ≤ 1 := by
  unfold pyRound4
  have hnn : 0 ≤ roundHalfEven (x * 10000) := roundHalfEven_nonneg (by linarith)
  have hle : roundHalfEven (x * 10000) ≤ 2 * 5000 :=
    roundHalfEven_le_of_le (by push_cast; linarith)
  constructor
  · exact div_nonneg (by exact_mod_cast hnn) (by norm_num)
  · rw [div_le_one (by norm_num)]
    have h2 : ((roundHalfEven (x * 10000) : ℚ)) ≤ ((2 * 5000 : ℤ) : ℚ) := by
      exact_mod_cast hle
    calc ((roundHalfEven (x * 10000) : ℚ)) ≤ ((2 * 5000 : ℤ) : ℚ) := h2
    _ = 10000 := by norm_num

/-- C2 (counterexample to the claim as stated): both inputs are non-empty,
yet `compute_similarity` raises — "the" consists of a single English stop
word, so the vectorizer's vocabulary is empty and `fit` fails with
`ValueError`. -/
theorem c2_counterexample_stopword_input :
    "the" ≠ "" ∧
      (compute_similarity initialVecState "the" "the").2 = .error "empty vocabulary" :=
  ⟨by decide, by rfl⟩

/-- C2 (amended): for non-empty inputs, whenever tokenization and stop word
removal leave at least one feature, the scorer returns a value in the
closed interval [0, 1]; when they leave none, vectorization raises and the
error propagates to the caller instead of a value being returned. -/
theorem c2_score_bounds_or_empty_vocab (st : VecState) (x y : String)
    (hx : x ≠ "") (hy : y ≠ "") :
    (fitFeatures x y = [] ∧
      (compute_similarity st x y).2 = .error "empty vocabulary") ∨
    (fitFeatures x y ≠ [] ∧
      ∃ q : ℚ, (compute_similarity st x y).2 = .ok q ∧ 0 ≤ q ∧ q ≤ 1) := by
  have hcos0 : 0 ≤ cosineSim (tfidfW (docFeatures x) (docFeatures x) (docFeatures y))
      (tfidfW (docFeatures y) (docFeatures x) (docFeatures y)) (fitFeatures x y) :=
    cosineSim_nonneg fun f => tfidf_prod_nonneg _ _ _ _ f
  have hcos1 : cosineSim (tfidfW (docFeatures x) (docFeatures x) (docFeatures y))
      (tfidfW (docFeatures y) (docFeatures x) (docFeatures y)) (fitFeatures x y) ≤ 1 :=
    cosineSim_le_one
  simp only [compute_similarity]
  rw [if_neg (by push_neg; exact ⟨hx, hy⟩)]
  by_cases h2 : fitFeatures x y = []
  · rw [if_pos h2]
    exact Or.inl ⟨h2, rfl⟩
  · rw [if_neg h2]
    exact Or.inr ⟨h2, _, rfl, (pyRound4_unit hcos0 hcos1).1, (pyRound4_unit hcos0 hcos1).2⟩

theorem c2_witness :
    (fitFeatures "python developer" "python engineer" = [] ∧
      (compute_similarity initialVecState "python developer" "python engineer").2 =
        .error "empty vocabulary") ∨
    (fitFeatures "python developer" "python engineer" ≠ [] ∧
      ∃ q : ℚ,
        (compute_similarity initialVecState "python developer" "python engineer").2 =
          .ok q ∧ 0 ≤ q ∧ q ≤ 1) :=
  c2_score_bounds_or_empty_vocab initialVecState "python developer" "python engineer"
    (by decide) (by decide)

end ResumeFit
